import Mathlib

/-!
Package go-relver: latest stable Go release and version comparison.

A shallow embedding of `relver/relver.go` (package `relver`) together with the
part of `golang.org/x/mod/semver` that `Compare` calls, followed by theorems
about the embedding.

Conventions of the embedding.

* A Go `string` (and a `[]byte`) is a sequence of bytes.  It is embedded as a
  `List Char`, one `Char` per element of the sequence.  The embedded code only
  ever tests an element for equality with, or order against, an ASCII constant
  or another element, so nothing depends on how elements outside ASCII are
  written.
* A Go function returning `(value, error)` returns a pair whose second
  component is `none` for the `nil` error.
* The Go type `int` is taken to be 64 bits wide (as on amd64 and arm64);
  `time.Duration` is `int64`.  Arithmetic on them wraps around.
* `net/http`, `io.ReadAll` and `encoding/json` are the outside world.  Their
  answers are given by an environment record `Env`, which the embedded
  functions consult exactly where the Go code calls out.
-/

namespace Relver

/-! ## Go strings -/

/-- Go `string` and `[]byte`: a sequence of bytes. -/
abbrev GoString := List Char

/-- Go slice expression `v[lo:hi]`. -/
def slice (v : GoString) (lo hi : Nat) : GoString := (v.take hi).drop lo

/-- Go `strings.TrimPrefix(s, pre)`: `s` without the leading `pre` when `s`
starts with it, `s` unchanged otherwise. -/
def TrimPrefix (s pre : GoString) : GoString :=
  if pre <+: s then s.drop pre.length else s

/-- Go comparison `x < y` of two strings: bytewise lexicographic order. -/
def strLt : GoString → GoString → Bool
  | [], [] => false
  | [], _ :: _ => true
  | _ :: _, [] => false
  | a :: as, b :: bs => if a < b then true else if b < a then false else strLt as bs

/-! ## golang.org/x/mod/semver (the functions reached from `semver.Compare`)

`relver.go` imports this package; its source is not among the files of the
repository. The specification gives its contract: the standard semantic-version
ordering (major, minor, patch, then the pre-release tags), in which a string that
is not a valid semantic version is below every valid one and two such strings are
equal. The definitions below follow the functions of the package one by one. -/

namespace semver

/-- The struct `parsed` of package semver. -/
structure parsed where
  major : GoString
  minor : GoString
  patch : GoString
  short : GoString
  prerelease : GoString
  build : GoString
deriving DecidableEq, Repr

/-- The loop `for i < len(v) && '0' <= v[i] && v[i] <= '9' { i++ }`, started at
index `i` with `rest = v[i:]`; the value is the final `i`. -/
def digitsEnd : GoString → Nat → Nat
  | [], i => i
  | c :: rest, i => if '0' ≤ c ∧ c ≤ '9' then digitsEnd rest (i + 1) else i

/-- Function `parseInt`: `(t, rest, ok)` is `some (t, rest)` when `ok`. -/
def parseInt (v : GoString) : Option (GoString × GoString) :=
  match v with
  | [] => none
  | c :: cs =>
    if c < '0' ∨ '9' < c then none
    else
      let i := digitsEnd cs 1
      if c = '0' ∧ i ≠ 1 then none
      else some (v.take i, v.drop i)

/-- Function `isIdentChar`. -/
def isIdentChar (c : Char) : Bool :=
  decide (('A' ≤ c ∧ c ≤ 'Z') ∨ ('a' ≤ c ∧ c ≤ 'z') ∨ ('0' ≤ c ∧ c ≤ '9') ∨ c = '-')

/-- Function `isBadNum`: all digits, more than one of them, the first a zero. -/
def isBadNum (v : GoString) : Bool :=
  let i := digitsEnd v 0
  decide (i = v.length ∧ i > 1 ∧ v.head? = some '0')

/-- Function `isNum`: all bytes are digits. -/
def isNum (v : GoString) : Bool :=
  let i := digitsEnd v 0
  decide (i = v.length)

/-- The check `start == i || isBadNum(v[start:i])` that closes an identifier. -/
def badIdent (v : GoString) (start i : Nat) : Bool :=
  decide (start = i) || isBadNum (slice v start i)

/-- The loop of `parsePrerelease`, at index `i` with `rest = v[i:]`, followed by
the check after the loop; the value is the final `i`, or `none` where the Go
code returns with `ok == false`. -/
def parsePrereleaseLoop (v : GoString) : GoString → Nat → Nat → Option Nat
  | [], i, start => if badIdent v start i then none else some i
  | c :: rest, i, start =>
    if c = '+' then (if badIdent v start i then none else some i)
    else if ¬ isIdentChar c ∧ c ≠ '.' then none
    else if c = '.' then
      if badIdent v start i then none
      else parsePrereleaseLoop v rest (i + 1) (i + 1)
    else parsePrereleaseLoop v rest (i + 1) start

/-- Function `parsePrerelease`. -/
def parsePrerelease (v : GoString) : Option (GoString × GoString) :=
  match v with
  | [] => none
  | c :: rest =>
    if c ≠ '-' then none
    else
      match parsePrereleaseLoop v rest 1 1 with
      | none => none
      | some i => some (v.take i, v.drop i)

/-- The loop of `parseBuild`, at index `i` with `rest = v[i:]`, followed by the
check `start == i` after the loop. -/
def parseBuildLoop : GoString → Nat → Nat → Option Nat
  | [], i, start => if start = i then none else some i
  | c :: rest, i, start =>
    if ¬ isIdentChar c ∧ c ≠ '.' then none
    else if c = '.' then
      if start = i then none
      else parseBuildLoop rest (i + 1) (i + 1)
    else parseBuildLoop rest (i + 1) start

/-- Function `parseBuild`. -/
def parseBuild (v : GoString) : Option (GoString × GoString) :=
  match v with
  | [] => none
  | c :: rest =>
    if c ≠ '+' then none
    else
      match parseBuildLoop rest 1 1 with
      | none => none
      | some i => some (v.take i, v.drop i)

/-- The end of `parse`, after major, minor and patch have been read: the
optional pre-release part, the optional build part, and nothing more. -/
def parseSuffix (major minor patch v : GoString) : Option parsed :=
  match (if v.head? = some '-' then parsePrerelease v else some ([], v)) with
  | none => none
  | some (prerelease, v) =>
    match (if v.head? = some '+' then parseBuild v else some ([], v)) with
    | none => none
    | some (build, v) =>
      if v ≠ [] then none
      else some { major, minor, patch, short := [], prerelease, build }

/-- Modelled from the spec: function `parse` of golang.org/x/mod/semver, whose source
is not among the repository's files; `(p, ok)` is `some p` when `ok`. -/
def parse (v : GoString) : Option parsed :=
  match v with
  | [] => none
  | c :: v =>
    if c ≠ 'v' then none
    else
      match parseInt v with
      | none => none
      | some (major, v) =>
        match v with
        | [] => some { major, minor := ['0'], patch := ['0'], short := ['.', '0', '.', '0'],
                       prerelease := [], build := [] }
        | c :: v =>
          if c ≠ '.' then none
          else
            match parseInt v with
            | none => none
            | some (minor, v) =>
              match v with
              | [] => some { major, minor, patch := ['0'], short := ['.', '0'],
                             prerelease := [], build := [] }
              | c :: v =>
                if c ≠ '.' then none
                else
                  match parseInt v with
                  | none => none
                  | some (patch, v) => parseSuffix major minor patch v

/-- Modelled from the spec: function `IsValid` of golang.org/x/mod/semver, whose source
is not among the repository's files: the string parses as a semantic version. -/
def IsValid (v : GoString) : Bool := (parse v).isSome

/-- Modelled from the spec: function `compareInt` of golang.org/x/mod/semver, whose
source is not among the repository's files: two numerals without leading zeros are
compared as numbers (the shorter is the smaller, equal lengths go bytewise). -/
def compareInt (x y : GoString) : Int :=
  if x = y then 0
  else if x.length < y.length then -1
  else if x.length > y.length then 1
  else if strLt x y then -1
  else 1

/-- The loop `for i < len(x) && x[i] != '.' { i++ }` of `nextIdent`. -/
def identEnd : GoString → Nat → Nat
  | [], i => i
  | c :: rest, i => if c ≠ '.' then identEnd rest (i + 1) else i

/-- Function `nextIdent`. -/
def nextIdent (x : GoString) : GoString × GoString :=
  let i := identEnd x 0
  (x.take i, x.drop i)

/-- The comparison of two identifiers that differ, inside `comparePrerelease`. -/
def compareIdent (dx dy : GoString) : Int :=
  let ix := isNum dx
  let iy := isNum dy
  if ix ≠ iy then (if ix then -1 else 1)
  else if ix ∧ dx.length < dy.length then -1
  else if ix ∧ dx.length > dy.length then 1
  else if strLt dx dy then -1
  else 1

/-- The loop `for x != "" && y != "" { ... }` of `comparePrerelease` followed by
the statement after it. -/
def comparePrereleaseLoop (x y : GoString) : Int :=
  match x, y with
  | _ :: x1, _ :: y1 =>
    if (nextIdent x1).1 ≠ (nextIdent y1).1 then
      compareIdent (nextIdent x1).1 (nextIdent y1).1
    else comparePrereleaseLoop (nextIdent x1).2 (nextIdent y1).2
  | [], _ => -1
  | _ :: _, [] => 1
termination_by x.length
decreasing_by
  simp only [nextIdent, List.length_drop, List.length_cons]
  omega

/-- Modelled from the spec: function `comparePrerelease` of golang.org/x/mod/semver,
whose source is not among the repository's files: the pre-release tags are compared
identifier by identifier, and a version without tags is above one with tags. -/
def comparePrerelease (x y : GoString) : Int :=
  if x = y then 0
  else if x = [] then 1
  else if y = [] then -1
  else comparePrereleaseLoop x y

/-- Modelled from the spec: function `Compare` of golang.org/x/mod/semver, whose source
is not among the repository's files. Two strings that are not valid are equal, one that
is not valid is below a valid one, and two valid ones are compared by major, minor and
patch as numbers and then by their pre-release tags. -/
def Compare (v w : GoString) : Int :=
  match parse v, parse w with
  | none, none => 0
  | none, some _ => -1
  | some _, none => 1
  | some pv, some pw =>
    if compareInt pv.major pw.major ≠ 0 then compareInt pv.major pw.major
    else if compareInt pv.minor pw.minor ≠ 0 then compareInt pv.minor pw.minor
    else if compareInt pv.patch pw.patch ≠ 0 then compareInt pv.patch pw.patch
    else comparePrerelease pv.prerelease pw.prerelease

end semver

/-! ## Package relver: version comparison -/

/-- Function `asGoSemVer` (relver.go, lines 49-58). -/
def asGoSemVer (input : GoString) : GoString :=
  if input = [] then []
  else
    let input := TrimPrefix input ['v']
    let input := TrimPrefix input ['g', 'o']
    ['v'] ++ input

/-- Function `Compare` (relver.go, lines 77-82). -/
def Compare (a b : GoString) : Int :=
  semver.Compare (asGoSemVer a) (asGoSemVer b)

/-! ## Package relver: errors, the outside world and package state -/

/-- An `error` value as package `github.com/pkg/errors` builds it: `fundamental` is a
message alone (`errors.New`, `errors.Errorf`, and every error made outside the
package), `withMessage` puts a message in front of a cause, and `withStack` adds the
call stack to an error (the stack itself is not modelled). -/
inductive GoError where
  | fundamental (msg : GoString)
  | withMessage (cause : GoError) (msg : GoString)
  | withStack (err : GoError)
deriving DecidableEq, Repr

namespace GoError

/-- Method `Error()`: the message; for `withMessage` it is `msg + ": " + cause.Error()`,
for `withStack` the message of the error inside. -/
def Error : GoError → GoString
  | fundamental msg => msg
  | withMessage cause msg => msg ++ [':', ' '] ++ cause.Error
  | withStack err => err.Error

/-- Method `Unwrap()`: one step inwards; a `fundamental` error has none. -/
def Unwrap : GoError → Option GoError
  | fundamental _ => none
  | withMessage cause _ => some cause
  | withStack err => some err

/-- Function `errors.Cause(err)`: the innermost error, reached by repeated `Cause()`. -/
def Cause : GoError → GoError
  | fundamental msg => fundamental msg
  | withMessage cause _ => cause.Cause
  | withStack err => err.Cause

end GoError

namespace errors

/-- Function `errors.New(message)`. -/
def New (message : GoString) : GoError := GoError.fundamental message

/-- Function `errors.Errorf(format, args...)`, given the formatted message. -/
def Errorf (formatted : GoString) : GoError := GoError.fundamental formatted

/-- Function `errors.Wrap(err, message)` for a non-nil `err`: the cause with the message
in front, inside a `withStack`. -/
def Wrap (err : GoError) (message : GoString) : GoError :=
  GoError.withStack (GoError.withMessage err message)

end errors

/-- One entry of a release's `files` (type `Release`, relver.go lines 211-219). -/
structure Release where
  FileName : GoString
  OS : GoString
  Arch : GoString
  Version : GoString
  SHA256SUM : GoString
  Size : Int
  Kind : GoString
deriving DecidableEq, Repr

/-- The element type of `Releases` (relver.go lines 222-226). -/
structure ReleaseUnit where
  Version : GoString
  Stable : Bool
  Files : List Release
deriving DecidableEq, Repr

/-- Type `Releases`. -/
abbrev Releases := List ReleaseUnit

/-- The fields of `http.Response` that `cURL` reads. `Body` stands for the body
stream: what reading it to the end yields. -/
structure Response where
  StatusCode : Int
  Status : GoString
  Body : Except GoError GoString

/-- The outside world as the package sees it. -/
structure Env where
  /-- The error of `http.NewRequestWithContext(ctx, GET, url, nil)`, by URL. -/
  NewRequestWithContext : GoString → Option GoError
  /-- The answer of `http.DefaultClient.Do(req)`, by URL and by the timeout
  (a `time.Duration`, in nanoseconds) of the request's context. -/
  Do : GoString → Int → Except GoError Response
  /-- The answer of `json.Unmarshal(body, &releases)`. -/
  Unmarshal : GoString → Except GoError Releases

/-- The package-level variables (relver.go lines 26-34). -/
structure Globals where
  urlEndpoint : GoString
  requestTimeout : Int
  ioReadAll : Response → Except GoError GoString

/-- Constant `URLEndpointDefault`. -/
def URLEndpointDefault : GoString := "https://go.dev/dl/?mode=json".toList

/-- Constant `RequestTimeoutDefault`. -/
def RequestTimeoutDefault : Int := 5

/-- Function `io.ReadAll` on a response body. -/
def ioReadAllDefault (r : Response) : Except GoError GoString := r.Body

/-- The package-level variables as initialised. -/
def initGlobals : Globals :=
  { urlEndpoint := URLEndpointDefault
    requestTimeout := RequestTimeoutDefault
    ioReadAll := ioReadAllDefault }

/-- A mathematical integer reduced to the `int64` with the same low 64 bits. -/
def wrapInt64 (x : Int) : Int := (x + 2 ^ 63) % 2 ^ 64 - 2 ^ 63

/-- The expression `time.Duration(timeOut)*time.Second` (relver.go line 98):
`time.Second` is 1000000000, the product is an `int64` product. -/
def toDuration (timeOut : Int) : Int := wrapInt64 (timeOut * 1000000000)

/-- The value of `timeOut` after lines 94-96 of `cURL`. -/
def effectiveTimeout (timeOut : Int) : Int :=
  if timeOut = 0 then RequestTimeoutDefault else timeOut

/-- The timeout `cURL` gives to `context.WithTimeout` for an argument `timeOut`. -/
def requestDuration (timeOut : Int) : Int := toDuration (effectiveTimeout timeOut)

/-- The message built by the `errors.Errorf` call of `cURL` (lines 120-125). -/
def statusMessage (targetURL status respBody : GoString) : GoString :=
  "fail to GET response from: ".toList ++ targetURL ++ "\nStatus: ".toList ++ status
    ++ "\nResponse body: ".toList ++ respBody

/-- Function `cURL` (relver.go lines 93-129). -/
def cURL (env : Env) (g : Globals) (targetURL : GoString) (timeOut : Int) :
    GoString × Option GoError :=
  let timeOut := if timeOut = 0 then RequestTimeoutDefault else timeOut
  match env.NewRequestWithContext targetURL with
  | some err => ([], some (errors.Wrap err "failed to create a new HTTP request".toList))
  | none =>
    match env.Do targetURL (toDuration timeOut) with
    | .error err => ([], some (errors.Wrap err "failed to GET HTTP request".toList))
    | .ok response =>
      match g.ioReadAll response with
      | .error err => ([], some (errors.Wrap err "fail to read response".toList))
      | .ok respBody =>
        if response.StatusCode ≠ 200 then
          ([], some (errors.Errorf (statusMessage targetURL response.Status respBody)))
        else (respBody, none)

/-- The loop over `releases` in `GetWithTimeout` and the return after it
(relver.go lines 165-171). -/
def scanReleases : Releases → GoString × Option GoError
  | [] => ([], some (errors.New "no stable releases found".toList))
  | unit :: rest =>
    if unit.Stable ∧ unit.Version ≠ [] then (unit.Version, none)
    else scanReleases rest

/-- Function `GetWithTimeout` (relver.go lines 153-172). -/
def GetWithTimeout (env : Env) (g : Globals) (timeout : Int) : GoString × Option GoError :=
  match cURL env g g.urlEndpoint timeout with
  | (_, some err) =>
    ([], some (errors.Wrap err "failed to retrieve the released version info".toList))
  | (respBody, none) =>
    match env.Unmarshal respBody with
    | .error err =>
      ([], some (errors.Wrap err "failed to parse/unmarshal the JSON response body".toList))
    | .ok releases => scanReleases releases

/-- Function `Get` (relver.go lines 140-142). -/
def Get (env : Env) (g : Globals) : GoString × Option GoError :=
  GetWithTimeout env g g.requestTimeout

/-- Function `SetTimeout` (relver.go lines 198-200). -/
def SetTimeout (timeoutSec : Int) (g : Globals) : Globals :=
  { g with requestTimeout := timeoutSec }

/-- Function `MockURL` (relver.go lines 180-187): the new state and the cleanup
function, which puts back the endpoint that was current at the call. -/
def MockURL (url : GoString) (g : Globals) : Globals × (Globals → Globals) :=
  ({ g with urlEndpoint := url }, fun g1 => { g1 with urlEndpoint := g.urlEndpoint })

/-! ## Reference definitions used to state the theorems -/

/-- Removal of one leading "v", if present. -/
def stripLeadingV : GoString → GoString
  | 'v' :: rest => rest
  | s => s

/-- Removal of one leading "go", if present. -/
def stripLeadingGo : GoString → GoString
  | 'g' :: 'o' :: rest => rest
  | s => s

/-- The operation `Normalize` of the specification, written from its words and not
from the code: the empty string stays empty; otherwise one leading "v" is removed if
present, then one leading "go" is removed if present, and a "v" is put in front. -/
def Normalize : GoString → GoString
  | [] => []
  | c :: rest => 'v' :: stripLeadingGo (stripLeadingV (c :: rest))

/-- The ASCII digit of `d`, for `d < 10`. -/
def digitChar (d : Nat) : Char := Char.ofNat (48 + d)

/-- The decimal digits of `n`, most significant first, without leading zeros. -/
def decimalDigits (n : Nat) : List Nat :=
  if n < 10 then [n] else decimalDigits (n / 10) ++ [n % 10]
decreasing_by omega

/-- The decimal numeral of `n` without leading zeros. -/
def decimal (n : Nat) : GoString := (decimalDigits n).map digitChar

/-- The number a list of digits, most significant first, stands for. -/
def digitsValue : List Nat → Nat
  | [] => 0
  | d :: ds => d * 10 ^ ds.length + digitsValue ds

/-- The version body `M.m.p`. -/
def dotted (M m p : Nat) : GoString := decimal M ++ '.' :: (decimal m ++ '.' :: decimal p)

/-- The integer -1, 0 or +1 of an ordering. -/
def signOf : Ordering → Int
  | .lt => -1
  | .eq => 0
  | .gt => 1

/-- Lexicographic comparison of two triples of numbers. -/
def compareTriples (x y : Nat × Nat × Nat) : Ordering :=
  (compare x.1 y.1).then ((compare x.2.1 y.2.1).then (compare x.2.2 y.2.2))

/-- The predicate `valid(s)`: the normalised form of `s` is a valid semantic version. -/
def validVersion (s : GoString) : Bool := semver.IsValid (asGoSemVer s)


/-! ## Sample worlds, for statements at concrete inputs -/

/-- A world in which every URL is well formed, the server answers at once with the
given status and body, and the body decodes to the given release list. -/
def serverEnv (code : Int) (status body : GoString) (releases : Releases) : Env :=
  { NewRequestWithContext := fun _ => none
    Do := fun _ _ => .ok { StatusCode := code, Status := status, Body := .ok body }
    Unmarshal := fun _ => .ok releases }

/-- A world whose server needs seven seconds to answer: a request whose context
times out earlier fails, a later one gets status 200 and a list with one stable
release. -/
def slowEnv : Env :=
  { NewRequestWithContext := fun _ => none
    Do := fun _ timeout =>
      if timeout < 7000000000 then
        .error (GoError.fundamental "context deadline exceeded".toList)
      else .ok { StatusCode := 200, Status := "200 OK".toList, Body := .ok "[...]".toList }
    Unmarshal := fun _ =>
      .ok [{ Version := "go1.23.2".toList, Stable := true, Files := [] }] }

/-- A world whose server answers a request only when the timeout of its context is
exactly `d0` nanoseconds (with status 200 and a list with one stable release) and
refuses every other request: what the fetch returns there tells which timeout it
attached. -/
def probeEnv (d0 : Int) : Env :=
  { NewRequestWithContext := fun _ => none
    Do := fun _ timeout =>
      if timeout = d0 then
        .ok { StatusCode := 200, Status := "200 OK".toList, Body := .ok "[...]".toList }
      else .error (GoError.fundamental "connection refused".toList)
    Unmarshal := fun _ =>
      .ok [{ Version := "go1.23.2".toList, Stable := true, Files := [] }] }

/-- What `GetWithTimeout` returns when the server of `probeEnv` refuses the request. -/
def refusedResult : GoString × Option GoError :=
  ([], some (errors.Wrap
    (errors.Wrap (GoError.fundamental "connection refused".toList)
      "failed to GET HTTP request".toList)
    "failed to retrieve the released version info".toList))

/-- A release list that mixes unstable entries, a stable entry without a version
and stable entries. -/
def mixedReleases : Releases :=
  [ { Version := "go1.23rc1".toList, Stable := false, Files := [] },
    { Version := [], Stable := true, Files := [] },
    { Version := "go1.22.8".toList, Stable := true, Files := [] },
    { Version := "go1.21.13".toList, Stable := true, Files := [] } ]

/-- A release list without a usable stable entry. -/
def unstableReleases : Releases :=
  [ { Version := "go1.23rc1".toList, Stable := false, Files := [] },
    { Version := [], Stable := true, Files := [] } ]


/-! ## The normaliser -/

theorem stripLeadingV_cons (c : Char) (rest : GoString) :
    stripLeadingV (c :: rest) = if c = 'v' then rest else c :: rest := by
  unfold stripLeadingV
  split
  · next h => simp at h; simp [h.1, h.2]
  · next h =>
    by_cases hc : c = 'v'
    · exact absurd (by rw [hc]) (h rest)
    · simp [hc]

theorem trimPrefix_v_cons (c : Char) (rest : GoString) :
    TrimPrefix (c :: rest) ['v'] = if c = 'v' then rest else c :: rest := by
  unfold TrimPrefix
  by_cases h : c = 'v'
  · subst h; simp
  · have h2 : ¬ ('v' = c) := fun e => h e.symm
    simp [h, h2]

theorem trimPrefix_v_eq (s : GoString) : TrimPrefix s ['v'] = stripLeadingV s := by
  match s with
  | [] => simp [TrimPrefix, stripLeadingV]
  | c :: rest => rw [trimPrefix_v_cons, stripLeadingV_cons]

theorem trimPrefix_go_eq (s : GoString) : TrimPrefix s ['g', 'o'] = stripLeadingGo s := by
  unfold TrimPrefix
  by_cases hp : ['g', 'o'] <+: s
  · obtain ⟨t, rfl⟩ := hp
    simp [stripLeadingGo]
  · rw [if_neg hp]
    unfold stripLeadingGo
    split
    · next rest => exact absurd ⟨rest, rfl⟩ hp
    · rfl

theorem asGoSemVer_eq_ref (s : GoString) : asGoSemVer s = Normalize s := by
  match s with
  | [] => simp [asGoSemVer, Normalize]
  | c :: rest =>
    simp only [asGoSemVer, Normalize, trimPrefix_v_eq, trimPrefix_go_eq]
    simp

theorem asGoSemVer_eq_nil_iff (s : GoString) : asGoSemVer s = [] ↔ s = [] := by
  match s with
  | [] => simp [asGoSemVer]
  | c :: rest => simp [asGoSemVer]

/-- A byte that `parseInt` accepts as a first digit is neither `v` nor `g`. -/
theorem digit_ne_v_g (c : Char) (h : ¬ (c < '0' ∨ '9' < c)) : c ≠ 'v' ∧ c ≠ 'g' := by
  constructor
  · rintro rfl; exact h (Or.inr (by decide))
  · rintro rfl; exact h (Or.inr (by decide))

theorem asGoSemVer_bare (c : Char) (rest : GoString) (h : ¬ (c < '0' ∨ '9' < c)) :
    asGoSemVer (c :: rest) = 'v' :: c :: rest := by
  obtain ⟨hv, hg⟩ := digit_ne_v_g c h
  rw [asGoSemVer_eq_ref]
  simp [Normalize, stripLeadingV_cons, hv]
  unfold stripLeadingGo
  split
  · next heq => simp at heq; exact absurd heq.1 hg
  · rfl

theorem asGoSemVer_v (c : Char) (rest : GoString) (h : ¬ (c < '0' ∨ '9' < c)) :
    asGoSemVer ('v' :: c :: rest) = 'v' :: c :: rest := by
  obtain ⟨hv, hg⟩ := digit_ne_v_g c h
  rw [asGoSemVer_eq_ref]
  simp [Normalize, stripLeadingV_cons]
  unfold stripLeadingGo
  split
  · next heq => simp at heq; exact absurd heq.1 hg
  · rfl

theorem asGoSemVer_go (c : Char) (rest : GoString) :
    asGoSemVer ('g' :: 'o' :: c :: rest) = 'v' :: c :: rest := by
  rw [asGoSemVer_eq_ref]
  simp [Normalize, stripLeadingV_cons, stripLeadingGo]

/-- C10. The normaliser `asGoSemVer` equals the reference definition taken from the
specification for every string; its output is empty only for the empty input; and for
every body `X` that starts with a digit, `"v"+X`, `"go"+X` and `X` itself all normalise
to `"v"+X`. -/
theorem asGoSemVer_refines_reference :
    (∀ s : GoString, asGoSemVer s = Normalize s) ∧
    (∀ s : GoString, asGoSemVer s = [] ↔ s = []) ∧
    (∀ (c : Char) (rest : GoString), '0' ≤ c ∧ c ≤ '9' →
      asGoSemVer ('v' :: c :: rest) = 'v' :: c :: rest ∧
      asGoSemVer ('g' :: 'o' :: c :: rest) = 'v' :: c :: rest ∧
      asGoSemVer (c :: rest) = 'v' :: c :: rest) := by
  refine ⟨asGoSemVer_eq_ref, asGoSemVer_eq_nil_iff, ?_⟩
  intro c rest hc
  have h : ¬ (c < '0' ∨ '9' < c) := by
    rintro (h | h)
    · exact absurd hc.1 (not_le.mpr h)
    · exact absurd hc.2 (not_le.mpr h)
  exact ⟨asGoSemVer_v c rest h, asGoSemVer_go c rest, asGoSemVer_bare c rest h⟩

/-- C10, at the inputs "v1.23.2", "go1.23.2" and "1.23.2". -/
theorem asGoSemVer_refines_reference_witness :
    asGoSemVer "v1.23.2".toList = "v1.23.2".toList ∧
    asGoSemVer "go1.23.2".toList = "v1.23.2".toList ∧
    asGoSemVer "1.23.2".toList = "v1.23.2".toList :=
  asGoSemVer_refines_reference.2.2 '1' ".23.2".toList (by decide)


/-! ## Decimal numerals -/

theorem digitChar_isDigit : ∀ d < 10, '0' ≤ digitChar d ∧ digitChar d ≤ '9' := by decide

theorem digitChar_lt_iff : ∀ d < 10, ∀ e < 10, (digitChar d < digitChar e ↔ d < e) := by
  decide

theorem digitChar_eq_iff : ∀ d < 10, ∀ e < 10, (digitChar d = digitChar e ↔ d = e) := by
  decide

theorem dot_not_digit : ¬ ('0' ≤ '.' ∧ '.' ≤ '9') := by decide

theorem decimalDigits_lt (n : Nat) : ∀ d ∈ decimalDigits n, d < 10 := by
  induction n using Nat.strong_induction_on with
  | _ n ih =>
    rw [decimalDigits]
    split
    · next h => intro d hd; simp at hd; omega
    · next h =>
      intro d hd
      rw [List.mem_append] at hd
      rcases hd with hd | hd
      · exact ih (n / 10) (by omega) d hd
      · simp at hd; omega

theorem decimalDigits_ne_nil (n : Nat) : decimalDigits n ≠ [] := by
  rw [decimalDigits]
  split <;> simp

theorem digitsValue_snoc (ds : List Nat) (d : Nat) :
    digitsValue (ds ++ [d]) = digitsValue ds * 10 + d := by
  induction ds with
  | nil => simp [digitsValue]
  | cons c cs ih =>
    have hlen : (cs ++ [d]).length = cs.length + 1 := by simp
    rw [List.cons_append, digitsValue, digitsValue, ih, hlen, pow_succ]
    ring

theorem digitsValue_decimalDigits (n : Nat) : digitsValue (decimalDigits n) = n := by
  induction n using Nat.strong_induction_on with
  | _ n ih =>
    rw [decimalDigits]
    split
    · simp [digitsValue]
    · next h =>
      rw [digitsValue_snoc, ih (n / 10) (by omega)]
      omega

/-- No leading zero: a numeral that starts with the digit 0 is the numeral "0". -/
theorem decimalDigits_head_zero (n : Nat) (rest : List Nat)
    (h : decimalDigits n = 0 :: rest) : rest = [] := by
  induction n using Nat.strong_induction_on generalizing rest with
  | _ n ih =>
    rw [decimalDigits] at h
    split at h
    · simp at h; exact h.2
    · next hn =>
      exfalso
      obtain ⟨c, cs, hcs⟩ := List.exists_cons_of_ne_nil (decimalDigits_ne_nil (n / 10))
      rw [hcs, List.cons_append] at h
      have hc : c = 0 := (List.cons.inj h).1
      subst hc
      have hnil := ih (n / 10) (by omega) cs hcs
      subst hnil
      have hv := digitsValue_decimalDigits (n / 10)
      rw [hcs] at hv
      simp [digitsValue] at hv
      omega

theorem digitsValue_lt_pow (ds : List Nat) (h : ∀ d ∈ ds, d < 10) :
    digitsValue ds < 10 ^ ds.length := by
  induction ds with
  | nil => simp [digitsValue]
  | cons c cs ih =>
    have hc : c < 10 := h c (List.mem_cons_self _ _)
    have hcs := ih (fun d hd => h d (List.mem_cons_of_mem _ hd))
    simp only [digitsValue, List.length_cons, pow_succ]
    nlinarith

theorem decimalDigits_inj (a b : Nat) (h : decimalDigits a = decimalDigits b) : a = b := by
  rw [← digitsValue_decimalDigits a, ← digitsValue_decimalDigits b, h]

theorem map_digitChar_inj (xs ys : List Nat) (hx : ∀ d ∈ xs, d < 10) (hy : ∀ d ∈ ys, d < 10)
    (h : xs.map digitChar = ys.map digitChar) : xs = ys := by
  induction xs generalizing ys with
  | nil => cases ys with
    | nil => rfl
    | cons b bs => simp at h
  | cons a as ih =>
    cases ys with
    | nil => simp at h
    | cons b bs =>
      simp only [List.map_cons, List.cons.injEq] at h
      have ha := hx a (List.mem_cons_self _ _)
      have hb := hy b (List.mem_cons_self _ _)
      have hab := (digitChar_eq_iff a ha b hb).mp h.1
      rw [hab, ih bs (fun d hd => hx d (List.mem_cons_of_mem _ hd))
        (fun d hd => hy d (List.mem_cons_of_mem _ hd)) h.2]

theorem decimal_inj (a b : Nat) (h : decimal a = decimal b) : a = b :=
  decimalDigits_inj a b
    (map_digitChar_inj _ _ (decimalDigits_lt a) (decimalDigits_lt b) h)

theorem decimal_length (n : Nat) : (decimal n).length = (decimalDigits n).length := by
  simp [decimal]

/-- A shorter numeral stands for a smaller number. -/
theorem lt_of_decimalDigits_length_lt (a b : Nat)
    (h : (decimalDigits a).length < (decimalDigits b).length) : a < b := by
  have ha := digitsValue_lt_pow _ (decimalDigits_lt a)
  rw [digitsValue_decimalDigits] at ha
  obtain ⟨c, cs, hcs⟩ := List.exists_cons_of_ne_nil (decimalDigits_ne_nil b)
  have hapos : 0 < (decimalDigits a).length :=
    List.length_pos.mpr (decimalDigits_ne_nil a)
  have hc : c ≠ 0 := by
    rintro rfl
    have := decimalDigits_head_zero b cs hcs
    subst this
    rw [hcs, List.length_singleton] at h
    omega
  have hb := digitsValue_decimalDigits b
  rw [hcs] at hb h
  simp only [digitsValue] at hb
  simp only [List.length_cons] at h
  have hpow : 10 ^ (decimalDigits a).length ≤ 10 ^ cs.length :=
    Nat.pow_le_pow_right (by norm_num) (by omega)
  have hcpos : 1 ≤ c := Nat.one_le_iff_ne_zero.mpr hc
  have hmul : 10 ^ cs.length ≤ c * 10 ^ cs.length := Nat.le_mul_of_pos_left _ hcpos
  calc a < 10 ^ (decimalDigits a).length := ha
    _ ≤ 10 ^ cs.length := hpow
    _ ≤ c * 10 ^ cs.length := hmul
    _ ≤ c * 10 ^ cs.length + digitsValue cs := Nat.le_add_right _ _
    _ = b := hb

/-- On numerals of one length the bytewise order is the order of the numbers. -/
theorem strLt_map_digitChar (xs ys : List Nat) (hlen : xs.length = ys.length)
    (hx : ∀ d ∈ xs, d < 10) (hy : ∀ d ∈ ys, d < 10) :
    strLt (xs.map digitChar) (ys.map digitChar) = true ↔ digitsValue xs < digitsValue ys := by
  induction xs generalizing ys with
  | nil =>
    cases ys with
    | nil => simp [strLt, digitsValue]
    | cons b bs => simp at hlen
  | cons a as ih =>
    cases ys with
    | nil => simp at hlen
    | cons b bs =>
      have ha := hx a (List.mem_cons_self _ _)
      have hb := hy b (List.mem_cons_self _ _)
      have hxs : ∀ d ∈ as, d < 10 := fun d hd => hx d (List.mem_cons_of_mem _ hd)
      have hys : ∀ d ∈ bs, d < 10 := fun d hd => hy d (List.mem_cons_of_mem _ hd)
      have hl : as.length = bs.length := by simpa using hlen
      have h1 := digitsValue_lt_pow as hxs
      have h2 := digitsValue_lt_pow bs hys
      have ih := ih bs hl hxs hys
      simp only [List.map_cons, strLt, digitsValue]
      rw [hl] at h1 ⊢
      by_cases hab : a < b
      · rw [if_pos ((digitChar_lt_iff a ha b hb).mpr hab)]
        simp only [true_iff]
        have : (a + 1) * 10 ^ bs.length ≤ b * 10 ^ bs.length :=
          Nat.mul_le_mul_right _ hab
        nlinarith
      · rw [if_neg (fun h => hab ((digitChar_lt_iff a ha b hb).mp h))]
        by_cases hba : b < a
        · rw [if_pos ((digitChar_lt_iff b hb a ha).mpr hba)]
          have : (b + 1) * 10 ^ bs.length ≤ a * 10 ^ bs.length :=
            Nat.mul_le_mul_right _ hba
          constructor
          · intro h; cases h
          · intro h; exfalso; nlinarith
        · rw [if_neg (fun h => hba ((digitChar_lt_iff b hb a ha).mp h))]
          have : a = b := by omega
          subst this
          rw [ih]
          omega

theorem signOf_compare (a b : Nat) :
    signOf (compare a b) = if a = b then 0 else if a < b then -1 else 1 := by
  rcases Nat.lt_trichotomy a b with h | h | h
  · have hne : a ≠ b := by omega
    rw [Nat.compare_eq_lt.mpr h, if_neg hne, if_pos h]; rfl
  · rw [Nat.compare_eq_eq.mpr h, if_pos h]; rfl
  · have hne : a ≠ b := by omega
    have hnl : ¬ a < b := by omega
    rw [Nat.compare_eq_gt.mpr h, if_neg hne, if_neg hnl]; rfl

/-- The function `compareInt` orders decimal numerals as numbers, not as strings. -/
theorem compareInt_decimal (a b : Nat) :
    semver.compareInt (decimal a) (decimal b) = signOf (compare a b) := by
  rw [signOf_compare]
  unfold semver.compareInt
  by_cases hab : a = b
  · subst hab; simp
  · have hne : decimal a ≠ decimal b := fun h => hab (decimal_inj a b h)
    rw [if_neg hne, if_neg hab, decimal_length, decimal_length]
    by_cases h1 : (decimalDigits a).length < (decimalDigits b).length
    · rw [if_pos h1, if_pos (lt_of_decimalDigits_length_lt a b h1)]
    · rw [if_neg h1]
      by_cases h2 : (decimalDigits a).length > (decimalDigits b).length
      · have hba := lt_of_decimalDigits_length_lt b a h2
        rw [if_pos h2, if_neg (by omega)]
      · rw [if_neg h2]
        have hl : (decimalDigits a).length = (decimalDigits b).length := by omega
        have hlex := strLt_map_digitChar _ _ hl (decimalDigits_lt a) (decimalDigits_lt b)
        rw [digitsValue_decimalDigits, digitsValue_decimalDigits] at hlex
        by_cases hlt : a < b
        · rw [if_pos hlt]
          have : strLt (decimal a) (decimal b) = true := hlex.mpr hlt
          rw [if_pos this]
        · rw [if_neg hlt]
          have : ¬ strLt (decimal a) (decimal b) = true := fun h => hlt (hlex.mp h)
          rw [if_neg this]


theorem digitChar_eq_core : ∀ d < 10, digitChar d = Nat.digitChar d := by decide

theorem toDigitsCore_eq (fuel n : Nat) (acc : List Char) (h : n < fuel) :
    Nat.toDigitsCore 10 fuel n acc = decimal n ++ acc := by
  induction fuel generalizing n acc with
  | zero => omega
  | succ f ih =>
    rw [Nat.toDigitsCore, decimal, decimalDigits]
    by_cases hn : n < 10
    · have h0 : n / 10 = 0 := by omega
      have hm : n % 10 = n := by omega
      simp [h0, hm, hn, digitChar_eq_core n hn]
    · have h0 : ¬ n / 10 = 0 := by omega
      have hlt : n % 10 < 10 := by omega
      simp only [if_neg h0, if_neg hn]
      rw [ih (n / 10) _ (by omega)]
      simp [decimal, digitChar_eq_core _ hlt]

theorem decimal_examples :
    decimal 0 = "0".toList ∧ decimal 7 = "7".toList ∧ decimal 23 = "23".toList ∧
    decimal 100 = "100".toList ∧ dotted 1 23 2 = "1.23.2".toList := by
  simp [dotted, decimal, decimalDigits]
  decide

/-- The numeral `decimal n` is the text Lean itself prints for `n`. -/
theorem decimal_eq_repr (n : Nat) : decimal n = (Nat.repr n).toList := by
  have h := toDigitsCore_eq (n + 1) n [] (Nat.lt_succ_self n)
  simp [Nat.repr, Nat.toDigits, h, List.asString]


/-! ## Results of the comparison functions -/

theorem compareInt_self (x : GoString) : semver.compareInt x x = 0 := by
  simp [semver.compareInt]

theorem compareInt_range (x y : GoString) :
    semver.compareInt x y = -1 ∨ semver.compareInt x y = 0 ∨ semver.compareInt x y = 1 := by
  unfold semver.compareInt
  split
  · exact Or.inr (Or.inl rfl)
  · split
    · exact Or.inl rfl
    · split
      · exact Or.inr (Or.inr rfl)
      · split
        · exact Or.inl rfl
        · exact Or.inr (Or.inr rfl)

theorem compareIdent_range (dx dy : GoString) :
    semver.compareIdent dx dy = -1 ∨ semver.compareIdent dx dy = 1 := by
  unfold semver.compareIdent
  simp only
  split
  · split
    · exact Or.inl rfl
    · exact Or.inr rfl
  · split
    · exact Or.inl rfl
    · split
      · exact Or.inr rfl
      · split
        · exact Or.inl rfl
        · exact Or.inr rfl

theorem comparePrereleaseLoop_range (x y : GoString) :
    semver.comparePrereleaseLoop x y = -1 ∨ semver.comparePrereleaseLoop x y = 1 := by
  induction x, y using semver.comparePrereleaseLoop.induct with
  | case1 a x1 b y1 hne =>
    rw [semver.comparePrereleaseLoop, if_pos hne]
    exact compareIdent_range _ _
  | case2 a x1 b y1 hne ih =>
    rw [semver.comparePrereleaseLoop, if_neg hne]
    exact ih
  | case3 y =>
    rw [semver.comparePrereleaseLoop]
    exact Or.inl rfl
  | case4 a x1 =>
    rw [semver.comparePrereleaseLoop]
    exact Or.inr rfl

theorem comparePrerelease_self (x : GoString) : semver.comparePrerelease x x = 0 := by
  simp [semver.comparePrerelease]

theorem comparePrerelease_range (x y : GoString) :
    semver.comparePrerelease x y = -1 ∨ semver.comparePrerelease x y = 0 ∨
      semver.comparePrerelease x y = 1 := by
  unfold semver.comparePrerelease
  split
  · exact Or.inr (Or.inl rfl)
  · split
    · exact Or.inr (Or.inr rfl)
    · split
      · exact Or.inl rfl
      · rcases comparePrereleaseLoop_range x y with h | h
        · exact Or.inl h
        · exact Or.inr (Or.inr h)

theorem semverCompare_range (v w : GoString) :
    semver.Compare v w = -1 ∨ semver.Compare v w = 0 ∨ semver.Compare v w = 1 := by
  unfold semver.Compare
  split
  · exact Or.inr (Or.inl rfl)
  · exact Or.inl rfl
  · exact Or.inr (Or.inr rfl)
  · split
    · exact compareInt_range _ _
    · split
      · exact compareInt_range _ _
      · split
        · exact compareInt_range _ _
        · exact comparePrerelease_range _ _

theorem semverCompare_self (v : GoString) : semver.Compare v v = 0 := by
  unfold semver.Compare
  split
  · rfl
  · next h1 h2 => rw [h1] at h2; cases h2
  · next h1 h2 => rw [h1] at h2; cases h2
  · next pv pw h1 h2 =>
    rw [h1] at h2
    cases h2
    simp [compareInt_self, comparePrerelease_self]

theorem parse_none_of_invalid (v : GoString) (h : semver.IsValid v = false) :
    semver.parse v = none := by
  unfold semver.IsValid at h
  cases hp : semver.parse v with
  | none => rfl
  | some p => rw [hp] at h; cases h

theorem semverCompare_invalid_invalid (v w : GoString)
    (hv : semver.IsValid v = false) (hw : semver.IsValid w = false) :
    semver.Compare v w = 0 := by
  have hv := parse_none_of_invalid v hv
  have hw := parse_none_of_invalid w hw
  simp [semver.Compare, hv, hw]

theorem semverCompare_invalid_valid (v w : GoString)
    (hv : semver.IsValid v = false) (hw : semver.IsValid w = true) :
    semver.Compare v w = -1 := by
  have hv := parse_none_of_invalid v hv
  obtain ⟨pw, hpw⟩ := Option.isSome_iff_exists.mp hw
  simp [semver.Compare, hv, hpw]

theorem semverCompare_valid_invalid (v w : GoString)
    (hv : semver.IsValid v = true) (hw : semver.IsValid w = false) :
    semver.Compare v w = 1 := by
  have hw := parse_none_of_invalid w hw
  obtain ⟨pv, hpv⟩ := Option.isSome_iff_exists.mp hv
  simp [semver.Compare, hw, hpv]

/-- A valid semantic version has a digit right after its leading `v`. -/
theorem valid_v_body (X : GoString) (h : semver.IsValid ('v' :: X) = true) :
    ∃ c rest, X = c :: rest ∧ ¬ (c < '0' ∨ '9' < c) := by
  match X with
  | [] => simp [semver.IsValid, semver.parse, semver.parseInt] at h
  | c :: rest =>
    refine ⟨c, rest, rfl, ?_⟩
    intro hc
    simp [semver.IsValid, semver.parse, semver.parseInt, hc] at h

theorem digitsEnd_bounds (v : GoString) (i : Nat) :
    i ≤ semver.digitsEnd v i ∧ semver.digitsEnd v i ≤ i + v.length := by
  induction v generalizing i with
  | nil => simp [semver.digitsEnd]
  | cons c rest ih =>
    rw [semver.digitsEnd, List.length_cons]
    split
    · have := ih (i + 1)
      omega
    · omega

theorem identEnd_bounds (x : GoString) (i : Nat) :
    i ≤ semver.identEnd x i ∧ semver.identEnd x i ≤ i + x.length := by
  induction x generalizing i with
  | nil => simp [semver.identEnd]
  | cons c rest ih =>
    rw [semver.identEnd, List.length_cons]
    split
    · have := ih (i + 1)
      omega
    · omega

theorem parsePrereleaseLoop_bounds (v rest : GoString) (i start j : Nat)
    (h : semver.parsePrereleaseLoop v rest i start = some j) :
    i ≤ j ∧ j ≤ i + rest.length := by
  induction rest generalizing i start with
  | nil =>
    rw [semver.parsePrereleaseLoop] at h
    split at h
    · cases h
    · cases h; simp
  | cons c rest ih =>
    rw [semver.parsePrereleaseLoop] at h
    rw [List.length_cons]
    split at h
    · split at h
      · cases h
      · cases h; omega
    · split at h
      · cases h
      · split at h
        · split at h
          · cases h
          · have := ih (i + 1) (i + 1) h
            omega
        · have := ih (i + 1) start h
          omega

theorem parseBuildLoop_bounds (rest : GoString) (i start j : Nat)
    (h : semver.parseBuildLoop rest i start = some j) :
    i ≤ j ∧ j ≤ i + rest.length := by
  induction rest generalizing i start with
  | nil =>
    rw [semver.parseBuildLoop] at h
    split at h
    · cases h
    · cases h; simp
  | cons c rest ih =>
    rw [semver.parseBuildLoop] at h
    rw [List.length_cons]
    split at h
    · cases h
    · split at h
      · split at h
        · cases h
        · have := ih (i + 1) (i + 1) h
          omega
      · have := ih (i + 1) start h
        omega

/-- C6. `Compare` is total: it is a function defined on every pair of strings (all its
loops end, and the index at which a loop of the parser or of the comparison stops lies
inside the string it scans, so that the slices taken there exist), and its result is
-1, 0 or +1 for every pair of strings. -/
theorem compare_total_three_valued (a b : GoString) :
    (Compare a b = -1 ∨ Compare a b = 0 ∨ Compare a b = 1) ∧
    (∀ (v : GoString) (i : Nat), semver.digitsEnd v i ≤ i + v.length) ∧
    (∀ (x : GoString) (i : Nat), semver.identEnd x i ≤ i + x.length) ∧
    (∀ (v rest : GoString) (i start j : Nat),
      semver.parsePrereleaseLoop v rest i start = some j → j ≤ i + rest.length) ∧
    (∀ (rest : GoString) (i start j : Nat),
      semver.parseBuildLoop rest i start = some j → j ≤ i + rest.length) :=
  ⟨semverCompare_range (asGoSemVer a) (asGoSemVer b),
   fun v i => (digitsEnd_bounds v i).2, fun x i => (identEnd_bounds x i).2,
   fun v rest i start j h => (parsePrereleaseLoop_bounds v rest i start j h).2,
   fun rest i start j h => (parseBuildLoop_bounds rest i start j h).2⟩

/-- C6, at a malformed and an empty string, and at two loop runs. -/
theorem compare_total_three_valued_witness :
    (Compare "go1..2".toList [] = -1 ∨ Compare "go1..2".toList [] = 0 ∨
      Compare "go1..2".toList [] = 1) ∧
    semver.parsePrereleaseLoop "-rc.1+x".toList "rc.1+x".toList 1 1 = some 5 ∧
    semver.parseBuildLoop "x.y".toList 1 1 = some 4 :=
  ⟨(compare_total_three_valued "go1..2".toList []).1, by decide, by decide⟩

/-- C5. With `validVersion s` saying that the normalised form of `s` is a valid semantic
version: the empty string is not valid; two strings that are both not valid compare
equal; a string that is not valid is below a valid one, and a valid one is above a
string that is not valid. -/
theorem compare_invalid_rules (a b : GoString) :
    validVersion [] = false ∧
    (validVersion a = false → validVersion b = false → Compare a b = 0) ∧
    (validVersion a = false → validVersion b = true → Compare a b = -1) ∧
    (validVersion a = true → validVersion b = false → Compare a b = 1) ∧
    (validVersion b = true → Compare [] b = -1 ∧ Compare b [] = 1) := by
  have hnil : validVersion [] = false := by decide
  refine ⟨hnil, ?_, ?_, ?_, ?_⟩
  · exact fun ha hb => semverCompare_invalid_invalid _ _ ha hb
  · exact fun ha hb => semverCompare_invalid_valid _ _ ha hb
  · exact fun ha hb => semverCompare_valid_invalid _ _ ha hb
  · exact fun hb => ⟨semverCompare_invalid_valid _ _ hnil hb,
      semverCompare_valid_invalid _ _ hb hnil⟩

/-- C5, at the strings "not a version" (not valid) and "go1.23.2" (valid). -/
theorem compare_invalid_rules_witness :
    Compare "not a version".toList "???".toList = 0 ∧
    Compare "not a version".toList "go1.23.2".toList = -1 ∧
    Compare "go1.23.2".toList "not a version".toList = 1 ∧
    Compare [] "go1.23.2".toList = -1 ∧ Compare "go1.23.2".toList [] = 1 :=
  ⟨(compare_invalid_rules "not a version".toList "???".toList).2.1 (by decide) (by decide),
   (compare_invalid_rules "not a version".toList "go1.23.2".toList).2.2.1 (by decide) (by decide),
   (compare_invalid_rules "go1.23.2".toList "not a version".toList).2.2.2.1
     (by decide) (by decide),
   (compare_invalid_rules [] "go1.23.2".toList).2.2.2.2 (by decide)⟩

/-- The pre-release loop evaluated on sample tags: numeric identifiers are compared as
numbers, a numeric identifier is below a textual one, a shorter list of identifiers is
below a longer one that extends it. -/
theorem comparePrereleaseLoop_examples :
    semver.comparePrereleaseLoop "-alpha.2".toList "-alpha.11".toList = -1 ∧
    semver.comparePrereleaseLoop "-alpha".toList "-alpha.1".toList = -1 ∧
    semver.comparePrereleaseLoop "-rc.1".toList "-beta.2".toList = 1 ∧
    semver.comparePrereleaseLoop "-1".toList "-beta".toList = -1 := by
  refine ⟨?_, ?_, ?_, ?_⟩ <;>
    simp [semver.comparePrereleaseLoop, semver.nextIdent, semver.identEnd,
      semver.compareIdent, semver.isNum, semver.digitsEnd, strLt]

/-- `Compare` evaluated on versions with pre-release tags. -/
theorem semverCompare_prerelease_examples :
    Compare "go1.10.0-alpha.2".toList "v1.10.0-alpha.11".toList = -1 ∧
    Compare "v1.10.0-rc.1".toList "go1.10.0".toList = -1 := by
  have h1 : semver.parse (asGoSemVer "go1.10.0-alpha.2".toList) = some
      { major := ['1'], minor := ['1', '0'], patch := ['0'], short := [],
        prerelease := "-alpha.2".toList, build := [] } := by decide
  have h2 : semver.parse (asGoSemVer "v1.10.0-alpha.11".toList) = some
      { major := ['1'], minor := ['1', '0'], patch := ['0'], short := [],
        prerelease := "-alpha.11".toList, build := [] } := by decide
  have h3 : semver.parse (asGoSemVer "v1.10.0-rc.1".toList) = some
      { major := ['1'], minor := ['1', '0'], patch := ['0'], short := [],
        prerelease := "-rc.1".toList, build := [] } := by decide
  have h4 : semver.parse (asGoSemVer "go1.10.0".toList) = some
      { major := ['1'], minor := ['1', '0'], patch := ['0'], short := [],
        prerelease := [], build := [] } := by decide
  refine ⟨?_, ?_⟩
  · simp only [Compare, semver.Compare, h1, h2, compareInt_self]
    simp [semver.comparePrerelease]
    exact comparePrereleaseLoop_examples.1
  · simp only [Compare, semver.Compare, h3, h4, compareInt_self]
    simp [semver.comparePrerelease]

/-! ## Parsing `v` + `M.m.p` -/

theorem digitsEnd_map_digitChar (ds : List Nat) (tail : GoString) (i : Nat)
    (hds : ∀ d ∈ ds, d < 10)
    (htail : ∀ c rest, tail = c :: rest → ¬ ('0' ≤ c ∧ c ≤ '9')) :
    semver.digitsEnd (ds.map digitChar ++ tail) i = i + ds.length := by
  induction ds generalizing i with
  | nil =>
    cases tail with
    | nil => simp [semver.digitsEnd]
    | cons c rest => simp [semver.digitsEnd, htail c rest rfl]
  | cons d ds ih =>
    have hd := digitChar_isDigit d (hds d (List.mem_cons_self _ _))
    rw [List.map_cons, List.cons_append, semver.digitsEnd, if_pos hd,
      ih (i + 1) (fun e he => hds e (List.mem_cons_of_mem _ he)), List.length_cons]
    omega

theorem parseInt_decimal (n : Nat) (tail : GoString)
    (htail : ∀ c rest, tail = c :: rest → ¬ ('0' ≤ c ∧ c ≤ '9')) :
    semver.parseInt (decimal n ++ tail) = some (decimal n, tail) := by
  obtain ⟨d, ds, hds⟩ := List.exists_cons_of_ne_nil (decimalDigits_ne_nil n)
  have hlt := decimalDigits_lt n
  rw [hds] at hlt
  have hd := hlt d (List.mem_cons_self _ _)
  have hdig := digitChar_isDigit d hd
  have hnot : ¬ (digitChar d < '0' ∨ '9' < digitChar d) := by
    rintro (h | h)
    · exact absurd hdig.1 (not_le.mpr h)
    · exact absurd hdig.2 (not_le.mpr h)
  have hend := digitsEnd_map_digitChar ds tail 1
    (fun e he => hlt e (List.mem_cons_of_mem _ he)) htail
  have hzero : ¬ (digitChar d = '0' ∧ 1 + ds.length ≠ 1) := by
    rintro ⟨h0, h1⟩
    have hd0 : d = 0 := (digitChar_eq_iff d hd 0 (by norm_num)).mp h0
    subst hd0
    have := decimalDigits_head_zero n ds hds
    subst this
    simp at h1
  have hdec : decimal n = digitChar d :: ds.map digitChar := by
    simp [decimal, hds]
  rw [hdec, List.cons_append]
  unfold semver.parseInt
  simp only [hnot, if_false, hend, hzero]
  have hlen : 1 + ds.length = (digitChar d :: ds.map digitChar).length := by
    simp; omega
  rw [hlen, ← List.cons_append, List.take_left, List.drop_left]

theorem dot_tail (rest : GoString) :
    ∀ c r, ('.' :: rest : GoString) = c :: r → ¬ ('0' ≤ c ∧ c ≤ '9') := by
  intro c r h
  have hc : c = '.' := (List.cons.inj h).1.symm
  subst hc
  exact dot_not_digit

theorem parse_dotted (M m p : Nat) :
    semver.parse ('v' :: dotted M m p) =
      some { major := decimal M, minor := decimal m, patch := decimal p, short := [],
             prerelease := [], build := [] } := by
  have h1 := parseInt_decimal M ('.' :: (decimal m ++ '.' :: decimal p)) (dot_tail _)
  have h2 := parseInt_decimal m ('.' :: decimal p) (dot_tail _)
  have h3 := parseInt_decimal p [] (by intro c r h; cases h)
  rw [List.append_nil] at h3
  simp [semver.parse, dotted, h1, h2, h3, semver.parseSuffix]

theorem isValid_dotted (M m p : Nat) : semver.IsValid ('v' :: dotted M m p) = true := by
  simp [semver.IsValid, parse_dotted]

theorem signOf_eq_zero (o : Ordering) : signOf o = 0 ↔ o = .eq := by
  cases o <;> simp [signOf]

theorem semverCompare_dotted (M1 m1 p1 M2 m2 p2 : Nat) :
    semver.Compare ('v' :: dotted M1 m1 p1) ('v' :: dotted M2 m2 p2) =
      signOf (compareTriples (M1, m1, p1) (M2, m2, p2)) := by
  unfold semver.Compare
  rw [parse_dotted, parse_dotted]
  simp only [compareInt_decimal, compareTriples, comparePrerelease_self]
  cases compare M1 M2 <;> cases compare m1 m2 <;> cases compare p1 p2 <;>
    simp [signOf, Ordering.then]

theorem dotted_cons (M m p : Nat) :
    ∃ c rest, dotted M m p = c :: rest ∧ ¬ (c < '0' ∨ '9' < c) :=
  valid_v_body _ (isValid_dotted M m p)

/-- C4. `Compare` does not depend on the prefix convention: for every numeric body
`M.m.n` and all prefixes `p`, `q` among "go" and "v", `Compare (p + "M.m.n")
(q + "M.m.n") = 0`; the same holds for every body `X` for which `"v" + X` is a valid
semantic version; and `Compare a a = 0` for every string `a`. -/
theorem compare_prefix_independent (M m n : Nat) (p q : GoString)
    (hp : p = ['g', 'o'] ∨ p = ['v']) (hq : q = ['g', 'o'] ∨ q = ['v']) :
    Compare (p ++ dotted M m n) (q ++ dotted M m n) = 0 ∧
    (∀ X : GoString, semver.IsValid ('v' :: X) = true → Compare (p ++ X) (q ++ X) = 0) ∧
    ∀ a : GoString, Compare a a = 0 := by
  have hgen : ∀ X : GoString, semver.IsValid ('v' :: X) = true →
      Compare (p ++ X) (q ++ X) = 0 := by
    intro X hX
    obtain ⟨c, rest, rfl, hc⟩ := valid_v_body X hX
    have hgo := asGoSemVer_go c rest
    have hv := asGoSemVer_v c rest hc
    unfold Compare
    rcases hp with rfl | rfl <;> rcases hq with rfl | rfl <;>
      simp only [List.cons_append, List.nil_append, hgo, hv] <;>
      exact semverCompare_self _
  exact ⟨hgen _ (isValid_dotted M m n), hgen, fun a => semverCompare_self _⟩

/-- C4, at the body 1.23.2 with the prefixes "go" and "v". -/
theorem compare_prefix_independent_witness :
    Compare (['g', 'o'] ++ dotted 1 23 2) (['v'] ++ dotted 1 23 2) = 0 ∧
    (∀ X : GoString, semver.IsValid ('v' :: X) = true →
      Compare (['g', 'o'] ++ X) (['v'] ++ X) = 0) ∧
    ∀ a : GoString, Compare a a = 0 :=
  compare_prefix_independent 1 23 2 ['g', 'o'] ['v'] (Or.inl rfl) (Or.inr rfl)

/-- C3. For all natural numbers written in decimal without leading zeros and all
prefixes `p`, `q` among "go" and "v", `Compare (p + "M1.m1.p1") (q + "M2.m2.p2")` is the
sign of the lexicographic comparison of the triples `(M1, m1, p1)` and `(M2, m2, p2)`:
the parts are compared as numbers. In particular "go1.9.0" is below "go1.10.0",
`Compare "go1.23.2" "go1.23.1" = 1` and `Compare "go1.23.1" "go1.23.2" = -1`. -/
theorem compare_numeric_triples (M1 m1 p1 M2 m2 p2 : Nat) (p q : GoString)
    (hp : p = ['g', 'o'] ∨ p = ['v']) (hq : q = ['g', 'o'] ∨ q = ['v']) :
    Compare (p ++ dotted M1 m1 p1) (q ++ dotted M2 m2 p2) =
      signOf (compareTriples (M1, m1, p1) (M2, m2, p2)) ∧
    Compare "go1.9.0".toList "go1.10.0".toList = -1 ∧
    Compare "go1.23.2".toList "go1.23.1".toList = 1 ∧
    Compare "go1.23.1".toList "go1.23.2".toList = -1 := by
  refine ⟨?_, by decide, by decide, by decide⟩
  obtain ⟨c1, r1, h1, hc1⟩ := dotted_cons M1 m1 p1
  obtain ⟨c2, r2, h2, hc2⟩ := dotted_cons M2 m2 p2
  have key := semverCompare_dotted M1 m1 p1 M2 m2 p2
  rw [h1, h2] at key ⊢
  unfold Compare
  rcases hp with rfl | rfl <;> rcases hq with rfl | rfl <;>
    simp only [List.cons_append, List.nil_append, asGoSemVer_go, asGoSemVer_v _ _ hc1,
      asGoSemVer_v _ _ hc2] <;>
    exact key

/-- C3, at 1.9.0 with prefix "go" against 1.10.0 with prefix "v". -/
theorem compare_numeric_triples_witness :
    Compare (['g', 'o'] ++ dotted 1 9 0) (['v'] ++ dotted 1 10 0) =
      signOf (compareTriples (1, 9, 0) (1, 10, 0)) ∧
    Compare "go1.9.0".toList "go1.10.0".toList = -1 ∧
    Compare "go1.23.2".toList "go1.23.1".toList = 1 ∧
    Compare "go1.23.1".toList "go1.23.2".toList = -1 :=
  compare_numeric_triples 1 9 0 1 10 0 ['g', 'o'] ['v'] (Or.inl rfl) (Or.inr rfl)


/-! ## The fetch -/

theorem scanReleases_first (pre post : Releases) (e : ReleaseUnit)
    (he : e.Stable = true ∧ e.Version ≠ [])
    (hpre : ∀ u ∈ pre, u.Stable = false ∨ u.Version = []) :
    scanReleases (pre ++ [e] ++ post) = (e.Version, none) := by
  induction pre with
  | nil => simp [scanReleases, he]
  | cons u us ih =>
    have hu : ¬ (u.Stable = true ∧ u.Version ≠ []) := by
      rintro ⟨h1, h2⟩
      rcases hpre u (List.mem_cons_self _ _) with h | h
      · rw [h] at h1; cases h1
      · exact h2 h
    rw [List.cons_append, List.cons_append, scanReleases, if_neg hu]
    exact ih (fun w hw => hpre w (List.mem_cons_of_mem _ hw))

theorem scanReleases_none (rs : Releases)
    (h : ∀ u ∈ rs, ¬ (u.Stable = true ∧ u.Version ≠ [])) :
    scanReleases rs = ([], some (errors.New "no stable releases found".toList)) := by
  induction rs with
  | nil => rfl
  | cons u us ih =>
    rw [scanReleases, if_neg (h u (List.mem_cons_self _ _))]
    exact ih (fun w hw => h w (List.mem_cons_of_mem _ hw))

theorem scanReleases_some (rs : Releases)
    (h : ∃ u ∈ rs, u.Stable = true ∧ u.Version ≠ []) :
    (scanReleases rs).2 = none := by
  induction rs with
  | nil => obtain ⟨u, hu, _⟩ := h; cases hu
  | cons u us ih =>
    rw [scanReleases]
    by_cases hu : u.Stable = true ∧ u.Version ≠ []
    · rw [if_pos hu]
    · rw [if_neg hu]
      obtain ⟨w, hw, hw2⟩ := h
      rcases List.mem_cons.mp hw with rfl | hmem
      · exact absurd hw2 hu
      · exact ih ⟨w, hmem, hw2⟩

/-- What `GetWithTimeout` does after a response with status 200 whose body was read
and decoded: it scans the decoded list. -/
theorem getWithTimeout_of_ok (env : Env) (g : Globals) (timeout : Int) (resp : Response)
    (body : GoString) (rs : Releases)
    (hreq : env.NewRequestWithContext g.urlEndpoint = none)
    (hdo : env.Do g.urlEndpoint (requestDuration timeout) = .ok resp)
    (hstatus : resp.StatusCode = 200)
    (hread : g.ioReadAll resp = .ok body)
    (hjson : env.Unmarshal body = .ok rs) :
    GetWithTimeout env g timeout = scanReleases rs := by
  simp only [requestDuration, effectiveTimeout] at hdo
  simp [GetWithTimeout, cURL, hreq, hdo, hstatus, hread, hjson]

/-- What `cURL` returns for a response whose status is not 200 and whose body was read. -/
theorem cURL_of_bad_status (env : Env) (g : Globals) (url : GoString) (timeout : Int)
    (resp : Response) (body : GoString)
    (hreq : env.NewRequestWithContext url = none)
    (hdo : env.Do url (requestDuration timeout) = .ok resp)
    (hstatus : resp.StatusCode ≠ 200)
    (hread : g.ioReadAll resp = .ok body) :
    cURL env g url timeout =
      ([], some (errors.Errorf (statusMessage url resp.Status body))) := by
  simp only [requestDuration, effectiveTimeout] at hdo
  simp [cURL, hreq, hdo, hstatus, hread]

theorem cURL_zero (env : Env) (g : Globals) (url : GoString) :
    cURL env g url 0 = cURL env g url 5 := by
  simp [cURL, RequestTimeoutDefault]

theorem getWithTimeout_zero (env : Env) (g : Globals) :
    GetWithTimeout env g 0 = GetWithTimeout env g 5 := by
  simp [GetWithTimeout, cURL_zero]

theorem wrapInt64_of_range (x : Int) (h1 : -9223372036854775808 ≤ x)
    (h2 : x < 9223372036854775808) : wrapInt64 x = x := by
  unfold wrapInt64
  norm_num
  omega

theorem effectiveTimeout_ne_zero (t : Int) : effectiveTimeout t ≠ 0 := by
  unfold effectiveTimeout RequestTimeoutDefault
  split
  · decide
  · assumption

theorem requestDuration_of_range (t : Int) (h1 : -9223372036 ≤ t) (h2 : t ≤ 9223372036) :
    requestDuration t = effectiveTimeout t * 1000000000 ∧ requestDuration t ≠ 0 := by
  have hne := effectiveTimeout_ne_zero t
  have hr : -9223372036 ≤ effectiveTimeout t ∧ effectiveTimeout t ≤ 9223372036 := by
    unfold effectiveTimeout RequestTimeoutDefault
    split <;> constructor <;> omega
  have heq : requestDuration t = effectiveTimeout t * 1000000000 := by
    unfold requestDuration toDuration
    apply wrapInt64_of_range <;> omega
  refine ⟨heq, ?_⟩
  rw [heq]
  omega

/-- C1. After a successful response (status 200, body read, body decoded), if the
decoded list is `pre ++ [e] ++ post` with `e` stable and with a non-empty version, and
every entry of `pre` is unstable or has an empty version, then `GetWithTimeout` returns
exactly `e.Version`, which is not empty, and a nil error, whatever `post` is. -/
theorem getWithTimeout_first_stable (env : Env) (g : Globals) (timeout : Int)
    (resp : Response) (body : GoString) (pre post : Releases) (e : ReleaseUnit)
    (hreq : env.NewRequestWithContext g.urlEndpoint = none)
    (hdo : env.Do g.urlEndpoint (requestDuration timeout) = .ok resp)
    (hstatus : resp.StatusCode = 200)
    (hread : g.ioReadAll resp = .ok body)
    (hjson : env.Unmarshal body = .ok (pre ++ [e] ++ post))
    (he : e.Stable = true ∧ e.Version ≠ [])
    (hpre : ∀ u ∈ pre, u.Stable = false ∨ u.Version = []) :
    GetWithTimeout env g timeout = (e.Version, none) ∧
    (GetWithTimeout env g timeout).1 ≠ [] := by
  have h : GetWithTimeout env g timeout = (e.Version, none) := by
    rw [getWithTimeout_of_ok env g timeout resp body _ hreq hdo hstatus hread hjson]
    exact scanReleases_first pre post e he hpre
  exact ⟨h, by rw [h]; exact he.2⟩


/-- C1, at a server that answers 200 with a list of an unstable entry, a stable entry
without version, "go1.22.8" (stable) and "go1.21.13" (stable). -/
theorem getWithTimeout_first_stable_witness :
    GetWithTimeout (serverEnv 200 "200 OK".toList "[...]".toList mixedReleases)
      initGlobals 5 = ("go1.22.8".toList, none) ∧
    (GetWithTimeout (serverEnv 200 "200 OK".toList "[...]".toList mixedReleases)
      initGlobals 5).1 ≠ [] :=
  getWithTimeout_first_stable (serverEnv 200 "200 OK".toList "[...]".toList mixedReleases)
    initGlobals 5
    { StatusCode := 200, Status := "200 OK".toList, Body := .ok "[...]".toList }
    "[...]".toList
    [ { Version := "go1.23rc1".toList, Stable := false, Files := [] },
      { Version := [], Stable := true, Files := [] } ]
    [ { Version := "go1.21.13".toList, Stable := true, Files := [] } ]
    { Version := "go1.22.8".toList, Stable := true, Files := [] }
    rfl rfl rfl rfl rfl ⟨rfl, by decide⟩ (by decide)

/-- C2. After a successful response (status 200, body read, body decoded to `rs`),
`GetWithTimeout` fails with the error "no stable releases found" if and only if no entry
of `rs` is both stable and has a non-empty version; in that case the returned version is
the empty string; and that error has the message "no stable releases found" and wraps no
cause. -/
theorem getWithTimeout_no_stable_iff (env : Env) (g : Globals) (timeout : Int)
    (resp : Response) (body : GoString) (rs : Releases)
    (hreq : env.NewRequestWithContext g.urlEndpoint = none)
    (hdo : env.Do g.urlEndpoint (requestDuration timeout) = .ok resp)
    (hstatus : resp.StatusCode = 200)
    (hread : g.ioReadAll resp = .ok body)
    (hjson : env.Unmarshal body = .ok rs) :
    ((GetWithTimeout env g timeout).2 = some (errors.New "no stable releases found".toList) ↔
      ∀ u ∈ rs, ¬ (u.Stable = true ∧ u.Version ≠ [])) ∧
    ((∀ u ∈ rs, ¬ (u.Stable = true ∧ u.Version ≠ [])) →
      GetWithTimeout env g timeout =
        ([], some (errors.New "no stable releases found".toList))) ∧
    (errors.New "no stable releases found".toList).Error = "no stable releases found".toList ∧
    (errors.New "no stable releases found".toList).Unwrap = none := by
  rw [getWithTimeout_of_ok env g timeout resp body rs hreq hdo hstatus hread hjson]
  refine ⟨⟨?_, ?_⟩, scanReleases_none rs, rfl, rfl⟩
  · intro h u hu hstable
    have := scanReleases_some rs ⟨u, hu, hstable⟩
    rw [this] at h
    cases h
  · intro h
    rw [scanReleases_none rs h]

/-- C2, at a server that answers 200 with a list of an unstable entry and a stable entry
without version. -/
theorem getWithTimeout_no_stable_iff_witness :
    GetWithTimeout (serverEnv 200 "200 OK".toList "[...]".toList unstableReleases)
      initGlobals 5 = ([], some (errors.New "no stable releases found".toList)) :=
  (getWithTimeout_no_stable_iff
    (serverEnv 200 "200 OK".toList "[...]".toList unstableReleases) initGlobals 5
    { StatusCode := 200, Status := "200 OK".toList, Body := .ok "[...]".toList }
    "[...]".toList unstableReleases rfl rfl rfl rfl rfl).2.1 (by decide)

/-- C9. For every response whose status code is not 200 and whose body was read,
whatever the body is and whatever it would decode to: `cURL` returns an error whose
message contains the target URL, the status text and the raw body; `GetWithTimeout`
(and `Get`, which calls it with the configured timeout) returns the empty string and an
error whose message contains "failed to retrieve the released version info" and the
status text. -/
theorem non200_response_fails (env : Env) (g : Globals) (timeout : Int)
    (resp : Response) (body : GoString)
    (hreq : env.NewRequestWithContext g.urlEndpoint = none)
    (hdo : env.Do g.urlEndpoint (requestDuration timeout) = .ok resp)
    (hstatus : resp.StatusCode ≠ 200)
    (hread : g.ioReadAll resp = .ok body) :
    (∃ err, cURL env g g.urlEndpoint timeout = ([], some err) ∧
      g.urlEndpoint <:+: err.Error ∧ resp.Status <:+: err.Error ∧ body <:+: err.Error) ∧
    (∃ err, GetWithTimeout env g timeout = ([], some err) ∧
      "failed to retrieve the released version info".toList <:+: err.Error ∧
      resp.Status <:+: err.Error) ∧
    (timeout = g.requestTimeout → Get env g = GetWithTimeout env g timeout) := by
  have hc := cURL_of_bad_status env g g.urlEndpoint timeout resp body hreq hdo hstatus hread
  have hg : GetWithTimeout env g timeout =
      ([], some (errors.Wrap (errors.Errorf (statusMessage g.urlEndpoint resp.Status body))
        "failed to retrieve the released version info".toList)) := by
    simp only [GetWithTimeout, hc]
  refine ⟨⟨_, hc, ?_, ?_, ?_⟩, ⟨_, hg, ?_, ?_⟩, ?_⟩
  · exact ⟨"fail to GET response from: ".toList,
      "\nStatus: ".toList ++ resp.Status ++ "\nResponse body: ".toList ++ body,
      by simp [errors.Errorf, GoError.Error, statusMessage]⟩
  · exact ⟨"fail to GET response from: ".toList ++ g.urlEndpoint ++ "\nStatus: ".toList,
      "\nResponse body: ".toList ++ body,
      by simp [errors.Errorf, GoError.Error, statusMessage]⟩
  · exact ⟨"fail to GET response from: ".toList ++ g.urlEndpoint ++ "\nStatus: ".toList
        ++ resp.Status ++ "\nResponse body: ".toList, [],
      by simp [errors.Errorf, GoError.Error, statusMessage]⟩
  · exact ⟨[], [':', ' '] ++ (statusMessage g.urlEndpoint resp.Status body),
      by simp [errors.Errorf, errors.Wrap, GoError.Error]⟩
  · exact ⟨"failed to retrieve the released version info".toList ++ [':', ' ']
        ++ "fail to GET response from: ".toList ++ g.urlEndpoint ++ "\nStatus: ".toList,
      "\nResponse body: ".toList ++ body,
      by simp [errors.Errorf, errors.Wrap, GoError.Error, statusMessage]⟩
  · intro h
    rw [h, Get]

/-- C9, at a server that answers "404 Not Found": the whole result of `Get`. -/
theorem non200_response_fails_witness :
    ∃ err, GetWithTimeout
        (serverEnv 404 "404 Not Found".toList "404 page not found".toList mixedReleases)
        initGlobals 5 = ([], some err) ∧
      "failed to retrieve the released version info".toList <:+: err.Error ∧
      "404 Not Found".toList <:+: err.Error :=
  (non200_response_fails
    (serverEnv 404 "404 Not Found".toList "404 page not found".toList mixedReleases)
    initGlobals 5
    { StatusCode := 404, Status := "404 Not Found".toList,
      Body := .ok "404 page not found".toList }
    "404 page not found".toList rfl rfl (by decide) rfl).2.1

/-- What the fetch returns in the probing world: the request is refused exactly when the
timeout the fetch attaches to it, `time.Duration(timeOut)*time.Second` for the `timeOut`
left by lines 94-96, is not the one the server waits for. -/
theorem getWithTimeout_probe_refused_iff (d0 : Int) (g : Globals) (t : Int) :
    GetWithTimeout (probeEnv d0) g t = refusedResult ↔
      wrapInt64 ((if t = 0 then 5 else t) * 1000000000) ≠ d0 := by
  by_cases h : wrapInt64 ((if t = 0 then 5 else t) * 1000000000) = d0
  · have hne : GetWithTimeout (probeEnv d0) g t ≠ refusedResult := by
      simp only [GetWithTimeout, cURL, probeEnv, toDuration, RequestTimeoutDefault, if_pos h]
      cases g.ioReadAll
          { StatusCode := 200, Status := "200 OK".toList, Body := .ok "[...]".toList } with
      | error e => simp [refusedResult, errors.Wrap]
      | ok body => simp [refusedResult, scanReleases]
    exact ⟨fun he => absurd he hne, fun hd => absurd h hd⟩
  · have he : GetWithTimeout (probeEnv d0) g t = refusedResult := by
      simp only [GetWithTimeout, cURL, probeEnv, toDuration, RequestTimeoutDefault, if_neg h,
        refusedResult]
    exact ⟨fun _ => h, fun _ => he⟩

theorem seconds_in_range (t : Int) (h1 : -9223372036 ≤ t) (h2 : t ≤ 9223372036) :
    wrapInt64 ((if t = 0 then 5 else t) * 1000000000) =
      (if t = 0 then 5 else t) * 1000000000 := by
  apply wrapInt64_of_range <;> split <;> omega

/-- C7, the code at the failing input: `GetWithTimeout` with the argument 2^55 (an `int`
on a 64-bit platform, and not zero). The server that answers only a request whose
timeout is exactly zero answers this one, and the server that needs seven seconds sees
it fail with "context deadline exceeded", although it answers a request that was given
ten seconds: the timeout attached to the request is zero, not 2^55 seconds. -/
theorem getWithTimeout_overflow_attaches_zero :
    (36028797018963968 : Int) ≠ 0 ∧
    -9223372036854775808 ≤ (36028797018963968 : Int) ∧
    (36028797018963968 : Int) < 9223372036854775808 ∧
    GetWithTimeout (probeEnv 0) initGlobals 36028797018963968 =
      ("go1.23.2".toList, none) ∧
    GetWithTimeout slowEnv initGlobals 36028797018963968 =
      ([], some (errors.Wrap
        (errors.Wrap (GoError.fundamental "context deadline exceeded".toList)
          "failed to GET HTTP request".toList)
        "failed to retrieve the released version info".toList)) ∧
    GetWithTimeout slowEnv initGlobals 10 = ("go1.23.2".toList, none) := by
  decide

/-- C8, refuted as stated: with the configured timeout 10, `Get` gives the request ten
seconds while `GetWithTimeout 0` gives it five, not the configured ten; against a server
that needs seven seconds the first succeeds and the second fails. -/
theorem getWithTimeout_zero_ignores_configured :
    (SetTimeout 10 initGlobals).requestTimeout = 10 ∧
    requestDuration (SetTimeout 10 initGlobals).requestTimeout = 10000000000 ∧
    requestDuration 0 = 5000000000 ∧
    Get slowEnv (SetTimeout 10 initGlobals) = ("go1.23.2".toList, none) ∧
    GetWithTimeout slowEnv (SetTimeout 10 initGlobals) 0 =
      ([], some (errors.Wrap
        (errors.Wrap (GoError.fundamental "context deadline exceeded".toList)
          "failed to GET HTTP request".toList)
        "failed to retrieve the released version info".toList)) := by
  decide

/-- C8, amended. For every configured timeout `c` between -9223372036 and 9223372036
seconds: `Get` passes `c` to the fetch; the request of `Get` then carries `c` seconds
when `c` is not 0 and the constant default 5 seconds when `c` is 0 (the server that
waits for exactly `d0` nanoseconds refuses it exactly when `d0` is another timeout); the
request of `GetWithTimeout 0` carries the constant default 5 seconds whatever `c` is;
when `c` is 0 or 5 the two return the same in every world, and for every other `c` the
server that waits for exactly five seconds answers `GetWithTimeout 0` and refuses `Get`.
The configured timeout is 5 when it was never set. -/
theorem get_uses_configured_timeout (env : Env) (g : Globals) (c : Int)
    (hlo : -9223372036 ≤ c) (hhi : c ≤ 9223372036) :
    Get env (SetTimeout c g) = GetWithTimeout env (SetTimeout c g) c ∧
    (∀ d0 : Int, Get (probeEnv d0) (SetTimeout c g) = refusedResult ↔
      (if c = 0 then 5 else c) * 1000000000 ≠ d0) ∧
    (∀ d0 : Int, GetWithTimeout (probeEnv d0) (SetTimeout c g) 0 = refusedResult ↔
      5000000000 ≠ d0) ∧
    (c = 0 ∨ c = 5 →
      Get env (SetTimeout c g) = GetWithTimeout env (SetTimeout c g) 0) ∧
    (c ≠ 0 → c ≠ 5 →
      GetWithTimeout (probeEnv 5000000000) (SetTimeout c g) 0 ≠ refusedResult ∧
      Get (probeEnv 5000000000) (SetTimeout c g) = refusedResult) ∧
    initGlobals.requestTimeout = 5 := by
  have hget : ∀ d0 : Int, Get (probeEnv d0) (SetTimeout c g) = refusedResult ↔
      (if c = 0 then 5 else c) * 1000000000 ≠ d0 := by
    intro d0
    have h := getWithTimeout_probe_refused_iff d0 (SetTimeout c g) c
    rw [seconds_in_range c hlo hhi] at h
    exact h
  have hzero : ∀ d0 : Int, GetWithTimeout (probeEnv d0) (SetTimeout c g) 0 = refusedResult ↔
      5000000000 ≠ d0 := by
    intro d0
    have h := getWithTimeout_probe_refused_iff d0 (SetTimeout c g) 0
    rw [seconds_in_range 0 (by decide) (by decide)] at h
    simpa using h
  refine ⟨rfl, hget, hzero, ?_, ?_, rfl⟩
  · rintro (rfl | rfl)
    · rfl
    · exact (getWithTimeout_zero env _).symm
  · intro h0 h5
    refine ⟨fun hr => (hzero 5000000000).mp hr rfl, (hget 5000000000).mpr ?_⟩
    rw [if_neg h0]
    omega

/-- C8 amended, at the configured timeout 10: the request of `Get` carries ten seconds,
the request of `GetWithTimeout 0` five; the server that waits for exactly ten seconds
answers `Get`, and the server that waits for exactly five seconds answers
`GetWithTimeout 0` and refuses `Get`. -/
theorem get_uses_configured_timeout_witness :
    Get (probeEnv 10000000000) (SetTimeout 10 initGlobals) ≠ refusedResult ∧
    GetWithTimeout (probeEnv 5000000000) (SetTimeout 10 initGlobals) 0 ≠ refusedResult ∧
    Get (probeEnv 5000000000) (SetTimeout 10 initGlobals) = refusedResult :=
  ⟨fun hr =>
      ((get_uses_configured_timeout slowEnv initGlobals 10 (by decide) (by decide)).2.1
        10000000000).mp hr (by decide),
   (get_uses_configured_timeout slowEnv initGlobals 10 (by decide) (by decide)).2.2.2.2.1
      (by decide) (by decide)⟩

/-! ## Further properties of the fetch and of the comparison -/

theorem scanReleases_nil_iff (rs : Releases) :
    (scanReleases rs).2 = none ↔ (scanReleases rs).1 ≠ [] := by
  induction rs with
  | nil => simp [scanReleases]
  | cons u us ih =>
    rw [scanReleases]
    by_cases hu : u.Stable = true ∧ u.Version ≠ []
    · rw [if_pos hu]; simp [hu.2]
    · rw [if_neg hu]; exact ih

/-- The result of `GetWithTimeout` has a nil error exactly when its version is not
empty: every failure returns the empty string, every success a non-empty version. -/
theorem getWithTimeout_nil_error_iff (env : Env) (g : Globals) (timeout : Int) :
    (GetWithTimeout env g timeout).2 = none ↔ (GetWithTimeout env g timeout).1 ≠ [] := by
  unfold GetWithTimeout
  split
  · simp
  · split
    · simp
    · exact scanReleases_nil_iff _

/-- The failures before decoding and the decoding failure: each is returned with the
empty string, wrapped with the message of the step that failed, the cause kept inside,
and the cause's message is part of the returned error's message. -/
theorem getWithTimeout_error_paths (env : Env) (g : Globals) (timeout : Int) :
    (∀ cause, env.NewRequestWithContext g.urlEndpoint = some cause →
      GetWithTimeout env g timeout =
        ([], some (errors.Wrap (errors.Wrap cause "failed to create a new HTTP request".toList)
          "failed to retrieve the released version info".toList))) ∧
    (∀ cause, env.NewRequestWithContext g.urlEndpoint = none →
      env.Do g.urlEndpoint (requestDuration timeout) = .error cause →
      GetWithTimeout env g timeout =
        ([], some (errors.Wrap (errors.Wrap cause "failed to GET HTTP request".toList)
          "failed to retrieve the released version info".toList))) ∧
    (∀ resp cause, env.NewRequestWithContext g.urlEndpoint = none →
      env.Do g.urlEndpoint (requestDuration timeout) = .ok resp →
      g.ioReadAll resp = .error cause →
      GetWithTimeout env g timeout =
        ([], some (errors.Wrap (errors.Wrap cause "fail to read response".toList)
          "failed to retrieve the released version info".toList))) ∧
    (∀ resp body cause, env.NewRequestWithContext g.urlEndpoint = none →
      env.Do g.urlEndpoint (requestDuration timeout) = .ok resp →
      g.ioReadAll resp = .ok body → resp.StatusCode = 200 →
      env.Unmarshal body = .error cause →
      GetWithTimeout env g timeout =
        ([], some (errors.Wrap cause
          "failed to parse/unmarshal the JSON response body".toList))) ∧
    (∀ (cause : GoError) (m1 m2 : GoString),
      cause.Error <:+: (errors.Wrap (errors.Wrap cause m1) m2).Error ∧
      (errors.Wrap cause m1).Unwrap = some (GoError.withMessage cause m1) ∧
      (GoError.withMessage cause m1).Unwrap = some cause ∧
      (errors.Wrap (errors.Wrap cause m1) m2).Cause = cause.Cause) := by
  refine ⟨?_, ?_, ?_, ?_, ?_⟩
  · intro cause h
    simp [GetWithTimeout, cURL, h]
  · intro cause h1 h2
    simp only [requestDuration, effectiveTimeout] at h2
    simp [GetWithTimeout, cURL, h1, h2]
  · intro resp cause h1 h2 h3
    simp only [requestDuration, effectiveTimeout] at h2
    simp [GetWithTimeout, cURL, h1, h2, h3]
  · intro resp body cause h1 h2 h3 h4 h5
    simp only [requestDuration, effectiveTimeout] at h2
    simp [GetWithTimeout, cURL, h1, h2, h3, h4, h5]
  · intro cause m1 m2
    refine ⟨⟨m2 ++ [':', ' '] ++ m1 ++ [':', ' '], [], ?_⟩, rfl, rfl, rfl⟩
    simp [errors.Wrap, GoError.Error]

/-- The slow server with a timeout of one second: the failure of the request is wrapped
twice and "context deadline exceeded" stays readable in the message. -/
theorem getWithTimeout_error_paths_witness :
    Get slowEnv (SetTimeout 1 initGlobals) =
      ([], some (errors.Wrap
        (errors.Wrap (GoError.fundamental "context deadline exceeded".toList)
          "failed to GET HTTP request".toList)
        "failed to retrieve the released version info".toList)) :=
  (getWithTimeout_error_paths slowEnv (SetTimeout 1 initGlobals) 1).2.1
    (GoError.fundamental "context deadline exceeded".toList) rfl rfl

/-- Function `MockURL` sets the endpoint and nothing else, and its cleanup function puts
the endpoint back that was current at the call. -/
theorem mockURL_restores (url : GoString) (g : Globals) :
    (MockURL url g).1.urlEndpoint = url ∧
    (MockURL url g).1.requestTimeout = g.requestTimeout ∧
    (MockURL url g).2 (MockURL url g).1 = g := by
  refine ⟨rfl, rfl, ?_⟩
  cases g
  rfl

/-- Versions written without any prefix are ordered like the prefixed ones: `Compare` of
two bare numeric versions `M.m.p` is the sign of the lexicographic comparison of the
triples, and a bare version equals the same version with the prefix "go" or "v". -/
theorem compare_bare_numeric (M1 m1 p1 M2 m2 p2 : Nat) :
    Compare (dotted M1 m1 p1) (dotted M2 m2 p2) =
      signOf (compareTriples (M1, m1, p1) (M2, m2, p2)) ∧
    Compare (dotted M1 m1 p1) (['g', 'o'] ++ dotted M1 m1 p1) = 0 ∧
    Compare (dotted M1 m1 p1) (['v'] ++ dotted M1 m1 p1) = 0 := by
  obtain ⟨c1, r1, h1, hc1⟩ := dotted_cons M1 m1 p1
  obtain ⟨c2, r2, h2, hc2⟩ := dotted_cons M2 m2 p2
  have key := semverCompare_dotted M1 m1 p1 M2 m2 p2
  rw [h1, h2] at key
  rw [h1, h2]
  unfold Compare
  simp only [List.cons_append, List.nil_append, asGoSemVer_go, asGoSemVer_v _ _ hc1,
    asGoSemVer_bare _ _ hc1, asGoSemVer_bare _ _ hc2, semverCompare_self]
  exact ⟨key, trivial, trivial⟩

/-- The zero timeout is replaced by the default in the fetch itself: for an argument `t`
between -9223372036 and 9223372036 seconds the request of `GetWithTimeout t` carries 5
seconds when `t` is 0 and `t` seconds otherwise (the server that waits for exactly `d0`
nanoseconds refuses it exactly when `d0` is another timeout), so never a zero timeout;
and in every world `GetWithTimeout 0` returns what `GetWithTimeout 5` returns, and `Get`
after `SetTimeout 0` what `Get` after `SetTimeout 5` returns. -/
theorem zero_timeout_is_default (env : Env) (g : Globals) (t : Int)
    (hlo : -9223372036 ≤ t) (hhi : t ≤ 9223372036) :
    (∀ d0 : Int, GetWithTimeout (probeEnv d0) g t = refusedResult ↔
      (if t = 0 then 5 else t) * 1000000000 ≠ d0) ∧
    GetWithTimeout (probeEnv 0) g t = refusedResult ∧
    GetWithTimeout env g 0 = GetWithTimeout env g 5 ∧
    Get env (SetTimeout 0 g) = Get env (SetTimeout 5 g) := by
  have hprobe : ∀ d0 : Int, GetWithTimeout (probeEnv d0) g t = refusedResult ↔
      (if t = 0 then 5 else t) * 1000000000 ≠ d0 := by
    intro d0
    have h := getWithTimeout_probe_refused_iff d0 g t
    rw [seconds_in_range t hlo hhi] at h
    exact h
  refine ⟨hprobe, (hprobe 0).mpr ?_, getWithTimeout_zero env g, ?_⟩
  · split <;> omega
  · simp only [Get, SetTimeout]
    exact getWithTimeout_zero env _

/-- The fetch with the argument 0: the server that waits for exactly five seconds
answers it, the server that waits for a zero timeout refuses it. -/
theorem zero_timeout_is_default_witness :
    GetWithTimeout (probeEnv 5000000000) initGlobals 0 ≠ refusedResult ∧
    GetWithTimeout (probeEnv 0) initGlobals 0 = refusedResult :=
  ⟨fun hr =>
      ((zero_timeout_is_default slowEnv initGlobals 0 (by decide) (by decide)).1
        5000000000).mp hr (by decide),
   (zero_timeout_is_default slowEnv initGlobals 0 (by decide) (by decide)).2.1⟩

end Relver
